import Mathlib

/-!
Verification of the `multihash` Go package (src/errors.go, src/multihash.go).

The package computes several hash digests over one data stream in a single
read pass.  `FromReader` leases a 64 KiB buffer from a `sync.Pool`, spawns
one `hashFeeder` goroutine per `hash.Hash`, and loops: read a chunk into the
shared buffer, broadcast the byte count on a shared channel (`readySignals`),
collect one acknowledgment per worker on a shared channel (`errorChannel`),
until a read returns an error.  A zero-byte `io.EOF` read closes
`readySignals` (the termination protocol), after which each worker sends
`hash.Sum(nil)` on its dedicated return channel and exits; `FromReader`
collects the digests in the original argument order.

The shallow embedding below is deterministic.  This is faithful because the
unbuffered channels impose a strict barrier: the orchestrator sends all
`len(hashFunctions)` signals before receiving any acknowledgment, and a
worker that has consumed a signal blocks on `errorChannel <- err` until the
orchestrator collects, so in every round each of the N workers consumes
exactly one of the N signals and performs exactly one `Write` of the same
chunk.  The only nondeterminism is the order in which acknowledgments of a
single round arrive on the shared `errorChannel`; we linearize it in worker
index order, which matters only for choosing among several simultaneous
write errors in one round.

Instrumentation fields of the result record expose facts the Go return value
does not carry but the claims are about:
* `readsPerformed` — how many `data.Read` calls were made;
* `leakedWorkers` — how many `hashFeeder` goroutines are left permanently
  blocked when the call returns.  In the code a worker can only exit its
  `for bytesRead := range readySignals` loop when `readySignals` is closed,
  which happens only on the zero-byte-EOF path (multihash.go line 69), and it
  then blocks on `returnChannel <- hash.Sum(nil)` until the final collection
  loop (lines 84–86) receives; both happen exactly on the normal-exit path,
  so on every error return from the loop all current workers stay blocked;
* `buffersReleased` — how many times `bufferPool.Put` runs before the call
  returns.  The `defer bufferPool.Put(buffer)` (line 55) is registered only
  after the type assertion on line 51 succeeds, so the
  `ErrBufferGetFailed` return on line 53 releases nothing.
-/

namespace Multihash

/-- A byte, as a natural number (values 0..255 in all concrete inputs). -/
abbrev Byte := Nat

/-- The error values that occur in this development.  `eof` models `io.EOF`;
`errBufferGetFailed` and `errHashFunctionNotAvailable` model the two
`errors.New` sentinels of src/errors.go; `unavailableHashFunction h` models
`UnavailableHashFunctionError` with `Hash` field `h` (a `crypto.Hash`, i.e. a
`uint`); `readFailure` and `writeFailure` stand for arbitrary distinct errors
a source read or an accumulator write can produce. -/
inductive GoError where
  | eof
  | errBufferGetFailed
  | errHashFunctionNotAvailable
  | unavailableHashFunction (h : Nat)
  | readFailure (code : Nat)
  | writeFailure (code : Nat)
deriving DecidableEq, Repr

/-- The `Is(target error) bool` method set of the error values: only
`UnavailableHashFunctionError` implements it (src/errors.go lines 19-21),
returning `target == ErrHashFunctionNotAvailable`. -/
def isMethod : GoError → GoError → Bool
  | .unavailableHashFunction _, target => target == .errHashFunctionNotAvailable
  | _, _ => false

/-- Go's `errors.Is(err, target)`: the values here have no `Unwrap` method,
so the chain is: report true if `err == target`, else consult `err`'s `Is`
method. -/
def errorsIs (err target : GoError) : Bool :=
  err == target || isMethod err target

/-- One result of a `data.Read(*buffer)` call: the bytes deposited into the
buffer (`bytesRead = chunk.length`) and the returned error, if any.  The
`io.Reader` contract guarantees `bytesRead ≤ len(buffer)`; no claim depends
on that bound. -/
structure ReadResult where
  chunk : List Byte
  err : Option GoError
deriving DecidableEq, Repr

/-- A hash accumulator, modelling the opaque `hash.Hash` collaborator.
`fed` is the byte sequence written so far; `digestOf` models `Sum(nil)` as a
function of the bytes fed (every `hash.Hash` is a deterministic function of
its input stream); `writeErrOn fed chunk` models the error, if any, that
`Write(chunk)` returns in state `fed` (standard library hashes never fail,
but `hash.Hash` permits it and the code handles it). -/
structure Hasher where
  fed : List Byte
  digestOf : List Byte → List Byte
  writeErrOn : List Byte → List Byte → Option GoError

/-- `hash.Write(chunk)` as performed by `hashFeeder` (multihash.go line 107):
returns the error and the accumulator afterwards.  On success the chunk is
appended to the bytes fed; on failure the state is irrelevant because
`FromReader` aborts and never finalizes. -/
def hashWrite (h : Hasher) (chunk : List Byte) : Option GoError × Hasher :=
  match h.writeErrOn h.fed chunk with
  | some e => (some e, h)
  | none => (none, { h with fed := h.fed ++ chunk })

/-- The acknowledgments of one barrier round: every worker receives the
signal and performs its `Write` of `(*buffer)[:bytesRead]` before the
orchestrator can finish collecting. -/
def roundErrors (hashers : List Hasher) (chunk : List Byte) : List (Option GoError) :=
  hashers.map fun h => (hashWrite h chunk).1

/-- The accumulator states after one barrier round. -/
def roundStates (hashers : List Hasher) (chunk : List Byte) : List Hasher :=
  hashers.map fun h => (hashWrite h chunk).2

/-- The error-collection loop (multihash.go lines 77-81): read
acknowledgments until the first non-nil error, linearized in worker index
order. -/
def firstError : List (Option GoError) → Option GoError
  | [] => none
  | some e :: _ => some e
  | none :: rest => firstError rest

/-- Everything observable about one `FromReader` call.  `hashset` and `err`
are the Go return values; the other fields are instrumentation (see the
file comment). -/
structure FromReaderResult where
  hashset : List (List Byte)
  err : Option GoError
  readsPerformed : Nat
  leakedWorkers : Nat
  buffersReleased : Nat
deriving Repr

/-- The normal exit (multihash.go lines 68-70 and 84-87): `readySignals` is
closed, every worker finalizes with `hash.Sum(nil)` and its digest is
collected in argument order; no worker is left blocked. -/
def finishCollect (hashers : List Hasher) (reads : Nat) : FromReaderResult :=
  { hashset := hashers.map fun h => h.digestOf h.fed
    err := none
    readsPerformed := reads
    leakedWorkers := 0
    buffersReleased := 1 }

/-- An error return from the read/broadcast loop (multihash.go line 72 or
line 79): `hashset` is still `nil`, `readySignals` is never closed, so every
current worker goroutine stays blocked forever. -/
def abortWith (e : GoError) (hashers : List Hasher) (reads : Nat) : FromReaderResult :=
  { hashset := []
    err := some e
    readsPerformed := reads
    leakedWorkers := hashers.length
    buffersReleased := 1 }

/-- The `for` loop of `FromReader` (multihash.go lines 65-82) followed by the
collection loop, over a scripted reader: `data` lists the successive results
of `data.Read(*buffer)`, and when the script is exhausted every further read
returns `(0, io.EOF)`. -/
def fromReaderLoop (hashers : List Hasher) (reads : Nat) :
    List ReadResult → FromReaderResult
  | [] => finishCollect hashers (reads + 1)
  | r :: rest =>
    match r.err with
    | some e =>
      if r.chunk.length == 0 && errorsIs e GoError.eof then
        finishCollect hashers (reads + 1)
      else
        abortWith e hashers (reads + 1)
    | none =>
      match firstError (roundErrors hashers r.chunk) with
      | some e => abortWith e hashers (reads + 1)
      | none => fromReaderLoop (roundStates hashers r.chunk) (reads + 1) rest

/-- What `bufferPool.Get()` handed back: in the code the pool's `New` makes a
`*[]byte`, but `FromReader` guards the type assertion, so we model both
shapes. -/
inductive PoolItem where
  | byteBuffer
  | wrongType
deriving DecidableEq, Repr

/-- `FromReader` (multihash.go lines 50-88).  If the type assertion on the
pool item fails, the call returns `ErrBufferGetFailed` before the
`defer bufferPool.Put(buffer)` is registered and before any worker is
spawned, so nothing is released and nothing leaks.  Otherwise the deferred
`Put` runs on every exit path. -/
def FromReader (poolItem : PoolItem) (hashers : List Hasher)
    (data : List ReadResult) : FromReaderResult :=
  match poolItem with
  | .wrongType =>
    { hashset := []
      err := some GoError.errBufferGetFailed
      readsPerformed := 0
      leakedWorkers := 0
      buffersReleased := 0 }
  | .byteBuffer => fromReaderLoop hashers 0 data

/-- `FromFile` (multihash.go lines 34-41): open the file, return the open
error as-is (with `nil` hashset), otherwise delegate to `FromReader`. -/
def FromFile (openResult : Except GoError (List ReadResult))
    (poolItem : PoolItem) (hashers : List Hasher) : FromReaderResult :=
  match openResult with
  | .error e =>
    { hashset := []
      err := some e
      readsPerformed := 0
      leakedWorkers := 0
      buffersReleased := 0 }
  | .ok data => FromReader poolItem hashers data

/-- The bytes the source yields before its first erroneous or end-of-stream
read — the entire stream contents as `FromReader` observes them on a
successful run. -/
def streamContents : List ReadResult → List Byte
  | [] => []
  | r :: rest =>
    match r.err with
    | some _ => []
    | none => r.chunk ++ streamContents rest

/-- The same read/broadcast loop over an unbounded source (`source k` is the
result of the `k`-th read), with explicit fuel: `none` means the loop did
not exit within `fuel` reads. -/
def fromReaderFuel (hashers : List Hasher) (source : Nat → ReadResult) :
    Nat → Option FromReaderResult
  | 0 => none
  | fuel + 1 =>
    let r := source 0
    match r.err with
    | some e =>
      if r.chunk.length == 0 && errorsIs e GoError.eof then
        some (finishCollect hashers 1)
      else
        some (abortWith e hashers 1)
    | none =>
      match firstError (roundErrors hashers r.chunk) with
      | some e => some (abortWith e hashers 1)
      | none =>
        fromReaderFuel (roundStates hashers r.chunk) (fun n => source (n + 1)) fuel

/-! ### The hash accumulators

The package treats `hash.Hash` values as opaque external collaborators; the
test file and the spec's concrete scenarios instantiate them with
`crypto.MD5.New()`, `crypto.SHA1.New()` and `crypto.SHA256.New()`.  To settle
the concrete-digest claims we model those three collaborators by their
public definitions (RFC 1321, RFC 3174, FIPS 180-4), as pure functions from
the full byte stream to the digest. -/

/-- Bitwise complement within a 32-bit word (arguments are always < 2^32). -/
def w32not (x : Nat) : Nat := x ^^^ 0xffffffff

/-- 32-bit left rotation (argument < 2^32, 0 < n < 32). -/
def rotl32 (x n : Nat) : Nat := ((x <<< n) % 4294967296) ||| (x >>> (32 - n))

/-- 32-bit right rotation (argument < 2^32, 0 < n < 32). -/
def rotr32 (x n : Nat) : Nat := (x >>> n) ||| ((x <<< (32 - n)) % 4294967296)

/-- Group bytes into 32-bit words, little-endian (MD5). -/
def leWords : List Byte → List Nat
  | b0 :: b1 :: b2 :: b3 :: rest =>
    (b0 + 256 * b1 + 65536 * b2 + 16777216 * b3) :: leWords rest
  | _ => []

/-- Group bytes into 32-bit words, big-endian (SHA-1, SHA-256). -/
def beWords : List Byte → List Nat
  | b0 :: b1 :: b2 :: b3 :: rest =>
    (b3 + 256 * b2 + 65536 * b1 + 16777216 * b0) :: beWords rest
  | _ => []

/-- A 32-bit word as four little-endian bytes. -/
def leBytes4 (n : Nat) : List Byte :=
  [n % 256, n / 256 % 256, n / 65536 % 256, n / 16777216 % 256]

/-- A 32-bit word as four big-endian bytes. -/
def beBytes4 (n : Nat) : List Byte :=
  [n / 16777216 % 256, n / 65536 % 256, n / 256 % 256, n % 256]

/-- A 64-bit value as eight little-endian bytes (MD5 length field). -/
def leBytes8 (n : Nat) : List Byte :=
  leBytes4 (n % 4294967296) ++ leBytes4 (n / 4294967296 % 4294967296)

/-- A 64-bit value as eight big-endian bytes (SHA length field). -/
def beBytes8 (n : Nat) : List Byte :=
  beBytes4 (n / 4294967296 % 4294967296) ++ beBytes4 (n % 4294967296)

/-- Merkle–Damgård padding: a 0x80 byte, zeros to 56 mod 64, then the 8-byte
bit length, little-endian for MD5 and big-endian for the SHAs. -/
def mdPad (lenBytes : Nat → List Byte) (msg : List Byte) : List Byte :=
  msg ++ [128] ++ List.replicate ((119 - msg.length % 64) % 64) 0
      ++ lenBytes (8 * msg.length)

/-- MD5 per-round sine-derived constants. -/
def md5K : List Nat :=
  [0xd76aa478, 0xe8c7b756, 0x242070db, 0xc1bdceee,
   0xf57c0faf, 0x4787c62a, 0xa8304613, 0xfd469501,
   0x698098d8, 0x8b44f7af, 0xffff5bb1, 0x895cd7be,
   0x6b901122, 0xfd987193, 0xa679438e, 0x49b40821,
   0xf61e2562, 0xc040b340, 0x265e5a51, 0xe9b6c7aa,
   0xd62f105d, 0x02441453, 0xd8a1e681, 0xe7d3fbc8,
   0x21e1cde6, 0xc33707d6, 0xf4d50d87, 0x455a14ed,
   0xa9e3e905, 0xfcefa3f8, 0x676f02d9, 0x8d2a4c8a,
   0xfffa3942, 0x8771f681, 0x6d9d6122, 0xfde5380c,
   0xa4beea44, 0x4bdecfa9, 0xf6bb4b60, 0xbebfbc70,
   0x289b7ec6, 0xeaa127fa, 0xd4ef3085, 0x04881d05,
   0xd9d4d039, 0xe6db99e5, 0x1fa27cf8, 0xc4ac5665,
   0xf4292244, 0x432aff97, 0xab9423a7, 0xfc93a039,
   0x655b59c3, 0x8f0ccc92, 0xffeff47d, 0x85845dd1,
   0x6fa87e4f, 0xfe2ce6e0, 0xa3014314, 0x4e0811a1,
   0xf7537e82, 0xbd3af235, 0x2ad7d2bb, 0xeb86d391]

/-- MD5 per-round rotation amounts. -/
def md5S : List Nat :=
  [7, 12, 17, 22, 7, 12, 17, 22, 7, 12, 17, 22, 7, 12, 17, 22,
   5, 9, 14, 20, 5, 9, 14, 20, 5, 9, 14, 20, 5, 9, 14, 20,
   4, 11, 16, 23, 4, 11, 16, 23, 4, 11, 16, 23, 4, 11, 16, 23,
   6, 10, 15, 21, 6, 10, 15, 21, 6, 10, 15, 21, 6, 10, 15, 21]

/-- The MD5 working state. -/
structure MD5State where
  a : Nat
  b : Nat
  c : Nat
  d : Nat

/-- One of MD5's 64 rounds over a 16-word block `m`. -/
def md5Step (m : List Nat) (st : MD5State) (i : Nat) : MD5State :=
  let f :=
    if i < 16 then (st.b &&& st.c) ||| (w32not st.b &&& st.d)
    else if i < 32 then (st.d &&& st.b) ||| (w32not st.d &&& st.c)
    else if i < 48 then st.b ^^^ st.c ^^^ st.d
    else st.c ^^^ (st.b ||| w32not st.d)
  let g :=
    if i < 16 then i
    else if i < 32 then (5 * i + 1) % 16
    else if i < 48 then (3 * i + 5) % 16
    else (7 * i) % 16
  let tmp := (f + st.a + md5K.getD i 0 + m.getD g 0) % 4294967296
  { a := st.d, d := st.c, c := st.b,
    b := (st.b + rotl32 tmp (md5S.getD i 0)) % 4294967296 }

/-- MD5 compression of one 64-byte block. -/
def md5Compress (st : MD5State) (block : List Byte) : MD5State :=
  let m := leWords block
  let r := (List.range 64).foldl (md5Step m) st
  { a := (st.a + r.a) % 4294967296, b := (st.b + r.b) % 4294967296,
    c := (st.c + r.c) % 4294967296, d := (st.d + r.d) % 4294967296 }

/-- Run a per-block compression over `blocks` 64-byte blocks of `msg`. -/
def foldBlocks (compress : α → List Byte → α) : Nat → List Byte → α → α
  | 0, _, st => st
  | n + 1, msg, st => foldBlocks compress n (msg.drop 64) (compress st (msg.take 64))

/-- MD5 of a byte sequence (RFC 1321), modelling the `crypto/md5`
collaborator as a function of the full input stream. -/
def md5 (msg : List Byte) : List Byte :=
  let p := mdPad leBytes8 msg
  let st := foldBlocks md5Compress (p.length / 64) p
    ⟨0x67452301, 0xefcdab89, 0x98badcfe, 0x10325476⟩
  leBytes4 st.a ++ leBytes4 st.b ++ leBytes4 st.c ++ leBytes4 st.d

/-- The SHA-1 working state. -/
structure Sha1State where
  a : Nat
  b : Nat
  c : Nat
  d : Nat
  e : Nat

/-- Expand a 16-word SHA-1 block to the 80-word message schedule. -/
def sha1Words (m : List Nat) : List Nat :=
  (List.range 64).foldl (fun ws j =>
    let i := j + 16
    ws ++ [rotl32 ((ws.getD (i - 3) 0) ^^^ (ws.getD (i - 8) 0) ^^^
                   (ws.getD (i - 14) 0) ^^^ (ws.getD (i - 16) 0)) 1]) m

/-- One of SHA-1's 80 rounds over the expanded schedule `w`. -/
def sha1Step (w : List Nat) (st : Sha1State) (i : Nat) : Sha1State :=
  let f :=
    if i < 20 then (st.b &&& st.c) ||| (w32not st.b &&& st.d)
    else if i < 40 then st.b ^^^ st.c ^^^ st.d
    else if i < 60 then (st.b &&& st.c) ||| (st.b &&& st.d) ||| (st.c &&& st.d)
    else st.b ^^^ st.c ^^^ st.d
  let k :=
    if i < 20 then 0x5a827999
    else if i < 40 then 0x6ed9eba1
    else if i < 60 then 0x8f1bbcdc
    else 0xca62c1d6
  let tmp := (rotl32 st.a 5 + f + st.e + k + w.getD i 0) % 4294967296
  { a := tmp, b := st.a, c := rotl32 st.b 30, d := st.c, e := st.d }

/-- SHA-1 compression of one 64-byte block. -/
def sha1Compress (st : Sha1State) (block : List Byte) : Sha1State :=
  let w := sha1Words (beWords block)
  let r := (List.range 80).foldl (sha1Step w) st
  { a := (st.a + r.a) % 4294967296, b := (st.b + r.b) % 4294967296,
    c := (st.c + r.c) % 4294967296, d := (st.d + r.d) % 4294967296,
    e := (st.e + r.e) % 4294967296 }

/-- SHA-1 of a byte sequence (RFC 3174), modelling the `crypto/sha1`
collaborator as a function of the full input stream. -/
def sha1 (msg : List Byte) : List Byte :=
  let p := mdPad beBytes8 msg
  let st := foldBlocks sha1Compress (p.length / 64) p
    ⟨0x67452301, 0xefcdab89, 0x98badcfe, 0x10325476, 0xc3d2e1f0⟩
  beBytes4 st.a ++ beBytes4 st.b ++ beBytes4 st.c ++ beBytes4 st.d ++ beBytes4 st.e

/-- SHA-256 round constants (FIPS 180-4, written in decimal). -/
def sha256K : List Nat :=
  [1116352408, 1899447441, 3049323471, 3921009573,
   961987163, 1508970993, 2453635748, 2870763221,
   3624381080, 310598401, 607225278, 1426881987,
   1925078388, 2162078206, 2614888103, 3248222580,
   3835390401, 4022224774, 264347078, 604807628,
   770255983, 1249150122, 1555081692, 1996064986,
   2554220882, 2821834349, 2952996808, 3210313671,
   3336571891, 3584528711, 113926993, 338241895,
   666307205, 773529912, 1294757372, 1396182291,
   1695183700, 1986661051, 2177026350, 2456956037,
   2730485921, 2820302411, 3259730800, 3345764771,
   3516065817, 3600352804, 4094571909, 275423344,
   430227734, 506948616, 659060556, 883997877,
   958139571, 1322822218, 1537002063, 1747873779,
   1955562222, 2024104815, 2227730452, 2361852424,
   2428436474, 2756734187, 3204031479, 3329325298]

/-- The SHA-256 working state. -/
structure Sha256State where
  a : Nat
  b : Nat
  c : Nat
  d : Nat
  e : Nat
  f : Nat
  g : Nat
  h : Nat

/-- Expand a 16-word SHA-256 block to the 64-word message schedule. -/
def sha256Words (m : List Nat) : List Nat :=
  (List.range 48).foldl (fun ws j =>
    let i := j + 16
    let w15 := ws.getD (i - 15) 0
    let w2 := ws.getD (i - 2) 0
    let s0 := rotr32 w15 7 ^^^ rotr32 w15 18 ^^^ (w15 >>> 3)
    let s1 := rotr32 w2 17 ^^^ rotr32 w2 19 ^^^ (w2 >>> 10)
    ws ++ [(ws.getD (i - 16) 0 + s0 + ws.getD (i - 7) 0 + s1) % 4294967296]) m

/-- One of SHA-256's 64 rounds over the expanded schedule `w`. -/
def sha256Step (w : List Nat) (st : Sha256State) (i : Nat) : Sha256State :=
  let s1 := rotr32 st.e 6 ^^^ rotr32 st.e 11 ^^^ rotr32 st.e 25
  let ch := (st.e &&& st.f) ^^^ (w32not st.e &&& st.g)
  let t1 := (st.h + s1 + ch + sha256K.getD i 0 + w.getD i 0) % 4294967296
  let s0 := rotr32 st.a 2 ^^^ rotr32 st.a 13 ^^^ rotr32 st.a 22
  let maj := (st.a &&& st.b) ^^^ (st.a &&& st.c) ^^^ (st.b &&& st.c)
  let t2 := (s0 + maj) % 4294967296
  { a := (t1 + t2) % 4294967296, b := st.a, c := st.b, d := st.c,
    e := (st.d + t1) % 4294967296, f := st.e, g := st.f, h := st.g }

/-- SHA-256 compression of one 64-byte block. -/
def sha256Compress (st : Sha256State) (block : List Byte) : Sha256State :=
  let w := sha256Words (beWords block)
  let r := (List.range 64).foldl (sha256Step w) st
  { a := (st.a + r.a) % 4294967296, b := (st.b + r.b) % 4294967296,
    c := (st.c + r.c) % 4294967296, d := (st.d + r.d) % 4294967296,
    e := (st.e + r.e) % 4294967296, f := (st.f + r.f) % 4294967296,
    g := (st.g + r.g) % 4294967296, h := (st.h + r.h) % 4294967296 }

/-- SHA-256 of a byte sequence (FIPS 180-4), modelling the `crypto/sha256`
collaborator as a function of the full input stream. -/
def sha256 (msg : List Byte) : List Byte :=
  let p := mdPad beBytes8 msg
  let st := foldBlocks sha256Compress (p.length / 64) p
    ⟨1779033703, 3144134277, 1013904242, 2773480762,
     1359893119, 2600822924, 528734635, 1541459225⟩
  beBytes4 st.a ++ beBytes4 st.b ++ beBytes4 st.c ++ beBytes4 st.d ++
  beBytes4 st.e ++ beBytes4 st.f ++ beBytes4 st.g ++ beBytes4 st.h

/-- A lowercase hex digit. -/
def hexDigit (n : Nat) : Char :=
  if n < 10 then Char.ofNat (48 + n) else Char.ofNat (87 + n)

/-- Lowercase hexadecimal rendering of a byte sequence, as produced by Go's
`%x` verb on a `[]byte`. -/
def bytesToHex (bs : List Byte) : String :=
  String.mk ((bs.map fun b => [hexDigit (b / 16 % 16), hexDigit (b % 16)]).flatten)

/-- A fresh `crypto.MD5.New()` accumulator. -/
def md5Hasher : Hasher := ⟨[], md5, fun _ _ => none⟩

/-- A fresh `crypto.SHA1.New()` accumulator. -/
def sha1Hasher : Hasher := ⟨[], sha1, fun _ _ => none⟩

/-- A fresh `crypto.SHA256.New()` accumulator. -/
def sha256Hasher : Hasher := ⟨[], sha256, fun _ _ => none⟩

/-! ### Concrete accumulators and sources used in witnesses -/

/-- A trivial always-succeeding accumulator whose digest is the byte sum
modulo 256 — a stand-in for any non-failing `hash.Hash`. -/
def sumHasher : Hasher :=
  ⟨[], fun l => [l.foldl (· + ·) 0 % 256], fun _ _ => none⟩

/-- An accumulator whose `Write` always fails, modelling an injected
accumulator write failure. -/
def failHasher : Hasher :=
  ⟨[], fun _ => [0], fun _ _ => some (GoError.writeFailure 7)⟩

/-! ### Helper lemmas -/

/-- The error-collection loop reports no error exactly when every
acknowledgment of the round is `nil`. -/
theorem firstError_eq_none_iff (l : List (Option GoError)) :
    firstError l = none ↔ ∀ e ∈ l, e = none := by
  induction l with
  | nil => simp [firstError]
  | cons x rest ih =>
    cases x with
    | none => simpa [firstError] using ih
    | some e => simp [firstError]

/-- If no worker acknowledged an error, every accumulator consumed the
chunk: the states after the round are the states before, each fed the
chunk. -/
theorem roundStates_of_no_error {hashers : List Hasher} {chunk : List Byte}
    (h : firstError (roundErrors hashers chunk) = none) :
    roundStates hashers chunk =
      hashers.map fun hf => { hf with fed := hf.fed ++ chunk } := by
  rw [firstError_eq_none_iff] at h
  apply List.map_congr_left
  intro hf hmem
  have hw : (hashWrite hf chunk).1 = none :=
    h _ (List.mem_map.mpr ⟨hf, hmem, rfl⟩)
  unfold hashWrite at hw ⊢
  cases hwe : hf.writeErrOn hf.fed chunk with
  | none => simp [hwe]
  | some e => rw [hwe] at hw; exact absurd hw (by simp)

/-- `errorsIs` against `io.EOF` holds only for `io.EOF` itself: no error
value has an `Is` method matching it. -/
theorem errorsIs_eof_iff (e : GoError) :
    errorsIs e GoError.eof = true ↔ e = GoError.eof := by
  cases e <;> simp [errorsIs, isMethod]

/-- A barrier round preserves the number of workers. -/
theorem roundStates_length (hashers : List Hasher) (chunk : List Byte) :
    (roundStates hashers chunk).length = hashers.length := by
  simp [roundStates]

/-- On a successful run the final digests are each accumulator's digest of
its initial contents followed by the entire stream contents. -/
theorem fromReaderLoop_success (data : List ReadResult) :
    ∀ hashers reads, (fromReaderLoop hashers reads data).err = none →
      (fromReaderLoop hashers reads data).hashset =
        hashers.map fun hf => hf.digestOf (hf.fed ++ streamContents data) := by
  induction data with
  | nil =>
    intro hashers reads _
    simp [fromReaderLoop, finishCollect, streamContents]
  | cons r rest ih =>
    intro hashers reads herr
    cases r with
    | mk chunk err =>
      cases err with
      | some e =>
        by_cases heof : chunk.length == 0 && errorsIs e GoError.eof
        · simp only [fromReaderLoop, heof, if_true] at herr ⊢
          simp [finishCollect, streamContents]
        · simp only [fromReaderLoop, heof, if_false] at herr
          exact absurd herr (by simp [abortWith])
      | none =>
        cases hfe : firstError (roundErrors hashers chunk) with
        | some e =>
          simp only [fromReaderLoop, hfe] at herr
          exact absurd herr (by simp [abortWith])
        | none =>
          have hstep := roundStates_of_no_error hfe
          simp only [fromReaderLoop, hfe] at herr ⊢
          rw [ih _ _ herr, hstep, List.map_map]
          simp [streamContents, Function.comp, List.append_assoc]

/-- Every error return of the read/broadcast loop carries a `nil` hashset
and leaves all current workers permanently blocked. -/
theorem fromReaderLoop_error (data : List ReadResult) :
    ∀ hashers reads, (fromReaderLoop hashers reads data).err ≠ none →
      (fromReaderLoop hashers reads data).hashset = [] ∧
      (fromReaderLoop hashers reads data).leakedWorkers = hashers.length := by
  induction data with
  | nil =>
    intro hashers reads herr
    exact absurd rfl herr
  | cons r rest ih =>
    intro hashers reads herr
    cases r with
    | mk chunk err =>
      cases err with
      | some e =>
        by_cases heof : chunk.length == 0 && errorsIs e GoError.eof
        · simp only [fromReaderLoop, heof, if_true] at herr
          exact absurd rfl herr
        · simp only [fromReaderLoop, heof, if_false]
          exact ⟨rfl, rfl⟩
      | none =>
        cases hfe : firstError (roundErrors hashers chunk) with
        | some e => simp only [fromReaderLoop, hfe]; exact ⟨rfl, rfl⟩
        | none =>
          simp only [fromReaderLoop, hfe] at herr ⊢
          have := ih (roundStates hashers chunk) (reads + 1) herr
          rwa [roundStates_length] at this

/-- The deferred `bufferPool.Put` runs exactly once on every exit of the
read/broadcast loop. -/
theorem fromReaderLoop_released (data : List ReadResult) :
    ∀ hashers reads, (fromReaderLoop hashers reads data).buffersReleased = 1 := by
  induction data with
  | nil => intro hashers reads; rfl
  | cons r rest ih =>
    intro hashers reads
    cases r with
    | mk chunk err =>
      cases err with
      | some e =>
        by_cases heof : chunk.length == 0 && errorsIs e GoError.eof
        · simp only [fromReaderLoop, heof, if_true]; rfl
        · simp only [fromReaderLoop, heof, if_false]; rfl
      | none =>
        cases hfe : firstError (roundErrors hashers chunk) with
        | some e => simp only [fromReaderLoop, hfe]; rfl
        | none => simp only [fromReaderLoop, hfe]; exact ih _ _

/-! ### The claims -/

/-- **C1.** For every input stream and every list of hash accumulators, the
digest at position `i` returned by `FromReader` equals the result of feeding
accumulator `i` the entire stream contents, in order, in a single unchunked
pass — the 64 KiB chunking is not observable in the output.  (Each
accumulator's digest is a function of the bytes fed to it; the theorem shows
accumulator `i` ends up fed exactly its initial contents followed by the
whole stream, so the digest equals the single-pass digest of the stream.) -/
theorem fromReader_chunking_unobservable (hashers : List Hasher)
    (data : List ReadResult)
    (h : (FromReader PoolItem.byteBuffer hashers data).err = none) :
    ∀ i : Nat, (FromReader PoolItem.byteBuffer hashers data).hashset[i]? =
      hashers[i]?.map fun hf => hf.digestOf (hf.fed ++ streamContents data) := by
  intro i
  have := fromReaderLoop_success data hashers 0 h
  simp only [FromReader] at h ⊢
  rw [this, List.getElem?_map]

/-- Witness for C1: a two-chunk `"abc"` stream into a fresh MD5 accumulator
succeeds and position 0 holds MD5 of the whole stream. -/
theorem fromReader_chunking_unobservable_witness :
    (FromReader PoolItem.byteBuffer [md5Hasher]
        [⟨[97, 98], none⟩, ⟨[99], none⟩, ⟨[], some GoError.eof⟩]).err = none ∧
    (FromReader PoolItem.byteBuffer [md5Hasher]
        [⟨[97, 98], none⟩, ⟨[99], none⟩, ⟨[], some GoError.eof⟩]).hashset[0]? =
      some (md5 [97, 98, 99]) :=
  ⟨rfl, by
    have := fromReader_chunking_unobservable [md5Hasher]
      [⟨[97, 98], none⟩, ⟨[99], none⟩, ⟨[], some GoError.eof⟩] rfl 0
    simpa [md5Hasher, streamContents] using this⟩

/-- **C2, counterexample.** One worker's write fails on the first chunk: the
call returns that error, but both workers are left permanently blocked
(`leakedWorkers = 2`), not drained — `readySignals` is never closed on this
path, contradicting the claim that no worker task is left blocked. -/
theorem fromReader_write_error_leaks_cex :
    (FromReader PoolItem.byteBuffer [failHasher, sumHasher] [⟨[5], none⟩]).err =
      some (GoError.writeFailure 7) ∧
    (FromReader PoolItem.byteBuffer [failHasher, sumHasher] [⟨[5], none⟩]).leakedWorkers = 2 :=
  ⟨rfl, rfl⟩

/-- **C2, amended.** If a Worker reports a write error during a barrier
round, the call aborts returning the first reported error of that round with
an empty digest sequence — but the remaining Workers are NOT drained: the
termination protocol is never run on an error path, so all of the call's
worker goroutines remain permanently blocked after the call returns. -/
theorem fromReader_write_error_aborts :
    (∀ hashers data, (FromReader PoolItem.byteBuffer hashers data).err ≠ none →
      (FromReader PoolItem.byteBuffer hashers data).hashset = [] ∧
      (FromReader PoolItem.byteBuffer hashers data).leakedWorkers = hashers.length) ∧
    (∀ hashers r rest e, r.err = none →
      firstError (roundErrors hashers r.chunk) = some e →
      (FromReader PoolItem.byteBuffer hashers (r :: rest)).err = some e) := by
  constructor
  · intro hashers data herr
    exact fromReaderLoop_error data hashers 0 herr
  · intro hashers r rest e hre hfe
    cases r with
    | mk chunk err =>
      cases hre
      simp only [FromReader, fromReaderLoop, hfe]
      rfl

/-- Witness for C2 (amended): the concrete failing round of the
counterexample, with both hypotheses discharged. -/
theorem fromReader_write_error_aborts_witness :
    ((FromReader PoolItem.byteBuffer [failHasher, sumHasher] [⟨[5], none⟩]).hashset = [] ∧
     (FromReader PoolItem.byteBuffer [failHasher, sumHasher] [⟨[5], none⟩]).leakedWorkers =
       [failHasher, sumHasher].length) ∧
    (FromReader PoolItem.byteBuffer [failHasher, sumHasher]
        [(⟨[5], none⟩ : ReadResult)]).err = some (GoError.writeFailure 7) :=
  ⟨fromReader_write_error_aborts.1 [failHasher, sumHasher] [⟨[5], none⟩] (by decide),
   fromReader_write_error_aborts.2 [failHasher, sumHasher] ⟨[5], none⟩ []
     (GoError.writeFailure 7) rfl rfl⟩

/-- **C3, counterexample.** A read returning one byte together with `io.EOF`
is not broadcast: `FromReader` exits at that very read (`readsPerformed = 1`)
and returns `io.EOF` as an error with no digests, instead of feeding the
byte to the accumulator and continuing to the following clean end-of-stream
read as the claim requires. -/
theorem fromReader_nonzero_eof_cex :
    (FromReader PoolItem.byteBuffer [sumHasher]
        [⟨[97], some GoError.eof⟩, ⟨[], some GoError.eof⟩]).err = some GoError.eof ∧
    (FromReader PoolItem.byteBuffer [sumHasher]
        [⟨[97], some GoError.eof⟩, ⟨[], some GoError.eof⟩]).hashset = [] ∧
    (FromReader PoolItem.byteBuffer [sumHasher]
        [⟨[97], some GoError.eof⟩, ⟨[], some GoError.eof⟩]).readsPerformed = 1 :=
  ⟨rfl, rfl, rfl⟩

/-- **C3, amended.** A read returning bytes with no error (whatever the
count, including zero) is broadcast to every Worker as the valid length of
the current chunk, and every accumulator consumes exactly those bytes; a
read returning any non-`nil` error is broadcast to no one: it exits the loop
normally when the error is `io.EOF` and the byte count is zero, and
otherwise — end-of-stream with bytes included — aborts the call with that
error. -/
theorem fromReader_read_dispatch :
    ∀ hashers reads (r : ReadResult) rest,
      (r.err = none → firstError (roundErrors hashers r.chunk) = none →
        fromReaderLoop hashers reads (r :: rest) =
          fromReaderLoop (hashers.map fun hf => { hf with fed := hf.fed ++ r.chunk })
            (reads + 1) rest) ∧
      (∀ e, r.err = some e → (r.chunk ≠ [] ∨ e ≠ GoError.eof) →
        fromReaderLoop hashers reads (r :: rest) = abortWith e hashers (reads + 1)) ∧
      (r.err = some GoError.eof → r.chunk = [] →
        fromReaderLoop hashers reads (r :: rest) = finishCollect hashers (reads + 1)) := by
  intro hashers reads r rest
  cases r with
  | mk chunk err =>
    refine ⟨?_, ?_, ?_⟩
    · intro hre hfe
      cases hre
      simp only [fromReaderLoop, hfe]
      rw [roundStates_of_no_error hfe]
    · intro e hre hne
      cases hre
      have : (chunk.length == 0 && errorsIs e GoError.eof) = false := by
        rcases hne with hc | he
        · have : chunk.length ≠ 0 := by simpa using hc
          simp [this]
        · have : errorsIs e GoError.eof = false := by
            rcases hb : errorsIs e GoError.eof with _ | _
            · rfl
            · exact absurd ((errorsIs_eof_iff e).mp hb) he
          simp [this]
      simp [fromReaderLoop, this]
    · intro hre hc
      cases hre
      cases hc
      simp only [fromReaderLoop]
      rw [if_pos]
      simp [errorsIs]

/-- Witness for C3 (amended): each of the three dispatch branches at a
concrete input, hypotheses discharged. -/
theorem fromReader_read_dispatch_witness :
    (fromReaderLoop [sumHasher] 0 [⟨[5], none⟩] =
      fromReaderLoop ([sumHasher].map fun hf => { hf with fed := hf.fed ++ [5] }) 1 []) ∧
    (fromReaderLoop [sumHasher] 0 [⟨[97], some GoError.eof⟩] =
      abortWith GoError.eof [sumHasher] 1) ∧
    (fromReaderLoop [sumHasher] 0 [⟨[], some GoError.eof⟩] =
      finishCollect [sumHasher] 1) :=
  ⟨(fromReader_read_dispatch [sumHasher] 0 ⟨[5], none⟩ []).1 rfl rfl,
   (fromReader_read_dispatch [sumHasher] 0 ⟨[97], some GoError.eof⟩ []).2.1
     GoError.eof rfl (Or.inl (by simp)),
   (fromReader_read_dispatch [sumHasher] 0 ⟨[], some GoError.eof⟩ []).2.2 rfl rfl⟩

/-- **C4.** Whenever `FromReader` (or `FromFile`) returns a non-`nil`
error — from a source read failure, an accumulator write failure, the pool
type assertion, or a failed file open — the returned digest sequence is
empty: the collection loop only runs on the normal-exit path, so no
partially filled digest sequence is ever returned alongside an error. -/
theorem fromReader_no_partial_results :
    (∀ poolItem hashers data, (FromReader poolItem hashers data).err ≠ none →
      (FromReader poolItem hashers data).hashset = []) ∧
    (∀ openResult poolItem hashers, (FromFile openResult poolItem hashers).err ≠ none →
      (FromFile openResult poolItem hashers).hashset = []) := by
  constructor
  · intro poolItem hashers data herr
    cases poolItem with
    | wrongType => rfl
    | byteBuffer => exact (fromReaderLoop_error data hashers 0 herr).1
  · intro openResult poolItem hashers herr
    cases openResult with
    | error e => rfl
    | ok data =>
      cases poolItem with
      | wrongType => rfl
      | byteBuffer => exact (fromReaderLoop_error data hashers 0 herr).1

/-- Witness for C4: a mid-stream read failure and a failed `os.Open`, both
returning an error and an empty hashset. -/
theorem fromReader_no_partial_results_witness :
    (FromReader PoolItem.byteBuffer [sumHasher]
      [⟨[1], none⟩, ⟨[], some (GoError.readFailure 3)⟩]).hashset = [] ∧
    (FromFile (Except.error (GoError.readFailure 4)) PoolItem.byteBuffer
      [sumHasher]).hashset = [] :=
  ⟨fromReader_no_partial_results.1 PoolItem.byteBuffer [sumHasher]
      [⟨[1], none⟩, ⟨[], some (GoError.readFailure 3)⟩] (by decide),
   fromReader_no_partial_results.2 (Except.error (GoError.readFailure 4))
      PoolItem.byteBuffer [sumHasher] (by simp [FromFile])⟩

set_option maxRecDepth 100000 in
/-- **C5.** The returned digest sequence is in the original positional order
of the accumulators — digest `i` is produced by accumulator `i` — and in
particular the stream `"abc"` with a fresh MD5 then a fresh SHA-1
accumulator yields `900150983cd24fb0d6963f7d28e17f72` then
`a9993e364706816aba3e25717850c26c9cd0d89d`, in that order. -/
theorem fromReader_positional_order (hashers : List Hasher) (data : List ReadResult)
    (h : (FromReader PoolItem.byteBuffer hashers data).err = none) :
    (∀ i : Nat, (FromReader PoolItem.byteBuffer hashers data).hashset[i]? =
      hashers[i]?.map fun hf => hf.digestOf (hf.fed ++ streamContents data)) ∧
    (FromReader PoolItem.byteBuffer [md5Hasher, sha1Hasher]
        [⟨[97, 98, 99], none⟩, ⟨[], some GoError.eof⟩]).hashset.map bytesToHex =
      ["900150983cd24fb0d6963f7d28e17f72",
       "a9993e364706816aba3e25717850c26c9cd0d89d"] := by
  constructor
  · intro i
    have := fromReaderLoop_success data hashers 0 h
    simp only [FromReader] at this ⊢
    rw [this, List.getElem?_map]
  · rfl

set_option maxRecDepth 100000 in
/-- Witness for C5: the `"abc"` scenario itself, with the success hypothesis
discharged, read off at both positions. -/
theorem fromReader_positional_order_witness :
    (FromReader PoolItem.byteBuffer [md5Hasher, sha1Hasher]
        [⟨[97, 98, 99], none⟩, ⟨[], some GoError.eof⟩]).hashset[0]? =
      some (md5 [97, 98, 99]) ∧
    (FromReader PoolItem.byteBuffer [md5Hasher, sha1Hasher]
        [⟨[97, 98, 99], none⟩, ⟨[], some GoError.eof⟩]).hashset[1]? =
      some (sha1 [97, 98, 99]) := by
  have h0 := (fromReader_positional_order [md5Hasher, sha1Hasher]
    [⟨[97, 98, 99], none⟩, ⟨[], some GoError.eof⟩] rfl).1 0
  have h1 := (fromReader_positional_order [md5Hasher, sha1Hasher]
    [⟨[97, 98, 99], none⟩, ⟨[], some GoError.eof⟩] rfl).1 1
  constructor
  · rw [h0]; decide
  · rw [h1]; decide

/-- With no accumulators the read loop still runs over a clean source:
no digests, no error, and at least the first read is performed. -/
theorem fromReaderLoop_no_accumulators (data : List ReadResult)
    (h : ∀ r ∈ data, r.err = none ∨ (r.err = some GoError.eof ∧ r.chunk = [])) :
    ∀ reads, (fromReaderLoop [] reads data).hashset = [] ∧
      (fromReaderLoop [] reads data).err = none ∧
      reads + 1 ≤ (fromReaderLoop [] reads data).readsPerformed := by
  induction data with
  | nil => intro reads; exact ⟨rfl, rfl, Nat.le_refl _⟩
  | cons r rest ih =>
    intro reads
    cases r with
    | mk chunk err =>
      rcases h ⟨chunk, err⟩ (List.mem_cons_self _ _) with hre | ⟨hre, hc⟩
      · simp only at hre
        subst hre
        have hfe : firstError (roundErrors [] chunk) = none := rfl
        simp only [fromReaderLoop, hfe]
        have := ih (fun r hr => h r (List.mem_cons_of_mem _ hr)) (reads + 1)
        exact ⟨this.1, this.2.1, Nat.le_of_succ_le this.2.2⟩
      · simp only at hre hc
        subst hre
        subst hc
        simp only [fromReaderLoop]
        rw [if_pos (by simp [errorsIs])]
        exact ⟨rfl, rfl, Nat.le_refl _⟩

/-- **C6.** Calling `FromReader` with zero accumulators on a stream whose
reads are error-free until a clean zero-byte end-of-stream returns an empty
digest sequence and no error — and the source is still read (at least one
`Read` call is performed; the loop runs to end-of-stream exactly as with
accumulators configured). -/
theorem fromReader_zero_accumulators (data : List ReadResult)
    (h : ∀ r ∈ data, r.err = none ∨ (r.err = some GoError.eof ∧ r.chunk = [])) :
    (FromReader PoolItem.byteBuffer [] data).hashset = [] ∧
    (FromReader PoolItem.byteBuffer [] data).err = none ∧
    1 ≤ (FromReader PoolItem.byteBuffer [] data).readsPerformed :=
  fromReaderLoop_no_accumulators data h 0

/-- Witness for C6: a two-read source (one data chunk, then end-of-stream)
with no accumulators. -/
theorem fromReader_zero_accumulators_witness :
    (FromReader PoolItem.byteBuffer []
        [⟨[7, 8], none⟩, ⟨[], some GoError.eof⟩]).hashset = [] ∧
    (FromReader PoolItem.byteBuffer []
        [⟨[7, 8], none⟩, ⟨[], some GoError.eof⟩]).err = none ∧
    1 ≤ (FromReader PoolItem.byteBuffer []
        [⟨[7, 8], none⟩, ⟨[], some GoError.eof⟩]).readsPerformed :=
  fromReader_zero_accumulators [⟨[7, 8], none⟩, ⟨[], some GoError.eof⟩]
    (by intro r hr
        rcases List.mem_cons.mp hr with hr1 | hr2
        · subst hr1; exact Or.inl rfl
        · rw [List.mem_singleton] at hr2; subst hr2; exact Or.inr ⟨rfl, rfl⟩)

set_option maxRecDepth 100000 in
/-- **C7, counterexample.** The spec's quoted SHA-256 empty-input digest
`e3b0…b85` has only 63 hex digits — it is missing its final digit — so the
digest `FromReader` returns for a fresh SHA-256 accumulator on the empty
stream is not the value given in the spec. -/
theorem fromReader_empty_stream_cex :
    bytesToHex ((FromReader PoolItem.byteBuffer [sha256Hasher]
        [⟨[], some GoError.eof⟩]).hashset.getD 0 []) ≠
      "e3b0c44298fc1c149afbf4c8996fb92427ae41e4649b934ca495991b7852b85" := by
  decide

set_option maxRecDepth 100000 in
/-- **C7, amended.** For an empty stream (first read reports end-of-stream
with zero bytes), `FromReader` returns for each accumulator that algorithm's
digest of its bytes fed — for fresh accumulators, the digest of empty
input — and for a fresh SHA-256 accumulator this digest is
`e3b0c44298fc1c149afbf4c8996fb92427ae41e4649b934ca495991b7852b855`
(the spec's quoted value is truncated by one trailing hex digit). -/
theorem fromReader_empty_stream (hashers : List Hasher) :
    ((FromReader PoolItem.byteBuffer hashers [⟨[], some GoError.eof⟩]).hashset =
      hashers.map fun hf => hf.digestOf hf.fed) ∧
    bytesToHex ((FromReader PoolItem.byteBuffer [sha256Hasher]
        [⟨[], some GoError.eof⟩]).hashset.getD 0 []) =
      "e3b0c44298fc1c149afbf4c8996fb92427ae41e4649b934ca495991b7852b855" :=
  ⟨rfl, by decide⟩

/-- **C8.** The unavailable-algorithm error is matched structurally, not by
identity: for every `crypto.Hash` value `h`, the value
`UnavailableHashFunctionError` carrying `h` is a different error value than
the sentinel `ErrHashFunctionNotAvailable`, yet `errors.Is` against the
sentinel succeeds through the type's `Is` method, so wrappers can test for
the condition generically without knowing which algorithm was requested. -/
theorem unavailable_matched_structurally (h : Nat) :
    errorsIs (GoError.unavailableHashFunction h) GoError.errHashFunctionNotAvailable = true ∧
    GoError.unavailableHashFunction h ≠ GoError.errHashFunctionNotAvailable :=
  ⟨rfl, by simp⟩

/-- **C9, counterexample.** On the pool type-assertion failure path the
`defer bufferPool.Put(buffer)` has not yet been registered when `FromReader`
returns `ErrBufferGetFailed`, so the acquired pool item is released zero
times, not exactly once as the claim states for every exit path. -/
theorem buffer_release_cex :
    (FromReader PoolItem.wrongType [] []).buffersReleased = 0 ∧
    (FromReader PoolItem.wrongType [] []).err = some GoError.errBufferGetFailed :=
  ⟨rfl, rfl⟩

/-- **C9, amended.** On every exit path of `FromReader` reached after the
pool type assertion succeeds — normal completion, source read error,
accumulator write error — the leased buffer is released back to the pool
exactly once before the call returns; on the type-assertion failure path
the acquired item is not released at all. -/
theorem buffer_release_exactly_once :
    (∀ hashers data, (FromReader PoolItem.byteBuffer hashers data).buffersReleased = 1) ∧
    (∀ hashers data, (FromReader PoolItem.wrongType hashers data).buffersReleased = 0) :=
  ⟨fun hashers data => fromReaderLoop_released data hashers 0, fun _ _ => rfl⟩

/-- **C10.** `FromReader` terminates for every source whose read sequence
eventually reports an error or end-of-stream: if the `k`-th read carries any
non-`nil` error, the loop exits within `k + 1` reads.  A read returning zero
bytes with no error does not terminate the loop: it is broadcast to every
Worker as a zero-length chunk, a no-op write that leaves every accumulator
unchanged, so a source that returns `(0, nil)` forever makes `FromReader`
loop without terminating — for every fuel bound the loop has not exited. -/
theorem fromReader_termination :
    (∀ (source : Nat → ReadResult) hashers k, ((source k).err).isSome = true →
      (fromReaderFuel hashers source (k + 1)).isSome = true) ∧
    (∀ hashers, (∀ hf ∈ hashers, ∀ fed, hf.writeErrOn fed [] = none) →
      ∀ fuel, fromReaderFuel hashers (fun _ => ⟨[], none⟩) fuel = none) ∧
    (∀ hashers, (∀ hf ∈ hashers, ∀ fed, hf.writeErrOn fed [] = none) →
      roundStates hashers [] = hashers ∧
      firstError (roundErrors hashers []) = none) := by
  have noop : ∀ hashers, (∀ hf ∈ hashers, ∀ fed, hf.writeErrOn fed [] = none) →
      roundStates hashers [] = hashers ∧
      firstError (roundErrors hashers []) = none := by
    intro hashers hok
    constructor
    · conv_rhs => rw [← List.map_id hashers]
      apply List.map_congr_left
      intro hf hmem
      unfold hashWrite
      rw [hok hf hmem hf.fed]
      simp
    · rw [firstError_eq_none_iff]
      intro e he
      obtain ⟨hf, hmem, rfl⟩ := List.mem_map.mp he
      unfold hashWrite
      rw [hok hf hmem hf.fed]
  refine ⟨?_, ?_, noop⟩
  · intro source hashers k
    induction k generalizing source hashers with
    | zero =>
      intro hs
      simp only [fromReaderFuel]
      cases he : (source 0).err with
      | none => rw [he] at hs; exact absurd hs (by simp)
      | some e =>
        by_cases hc : (source 0).chunk.length == 0 && errorsIs e GoError.eof
        · simp [hc]
        · simp [hc]
    | succ k ih =>
      intro hs
      simp only [fromReaderFuel]
      cases he : (source 0).err with
      | some e =>
        by_cases hc : (source 0).chunk.length == 0 && errorsIs e GoError.eof
        · simp [hc]
        · simp [hc]
      | none =>
        cases hfe : firstError (roundErrors hashers (source 0).chunk) with
        | some e => simp
        | none => exact ih (fun n => source (n + 1)) _ hs
  · intro hashers hok fuel
    induction fuel generalizing hashers with
    | zero => rfl
    | succ fuel ih =>
      have hr := noop hashers hok
      simp only [fromReaderFuel, hr.2]
      rw [hr.1]
      exact ih hashers hok

/-- Witness for C10: a source that errors at its first read terminates with
fuel 1; the constant `(0, nil)` source has not terminated after 3 reads; a
zero-length round over a non-failing accumulator is a no-op. -/
theorem fromReader_termination_witness :
    (fromReaderFuel [] (fun _ => ⟨[], some GoError.eof⟩) (0 + 1)).isSome = true ∧
    fromReaderFuel [sumHasher] (fun _ => ⟨[], none⟩) 3 = none ∧
    (roundStates [sumHasher] [] = [sumHasher] ∧
     firstError (roundErrors [sumHasher] []) = none) :=
  ⟨fromReader_termination.1 (fun _ => ⟨[], some GoError.eof⟩) [] 0 rfl,
   fromReader_termination.2.1 [sumHasher]
     (by intro hf hmem fed
         rw [List.mem_singleton] at hmem
         subst hmem
         rfl) 3,
   fromReader_termination.2.2 [sumHasher]
     (by intro hf hmem fed
         rw [List.mem_singleton] at hmem
         subst hmem
         rfl)⟩

end Multihash
